import Mathlib

/-!
Verification of the x-trader backtesting script (src/x_trader.py) against its
natural-language specification.

The pandas data frame is modelled as an ordered association list of named
columns; a column is a list of optional rationals (`none` models a NaN cell,
`ℚ` is the ideal model of the float values).  The indicator arithmetic
(rolling means, RSI) is embedded from the pandas expressions in
`calculate_technical_indicators`; the column-renaming pipeline is embedded
from `prepare_data` / `fill_missing_values`.  The strategy, broker and replay
loop live in the third-party backtrader library, whose code is not part of
this repository; those parts are modelled from the specification (each such
definition's doc comment says so).
-/

namespace XTrader

/-- A pandas column: one optional rational per row, `none` modelling NaN. -/
abbrev Column := List (Option ℚ)

/-- A pandas data frame: an ordered list of named columns. -/
abbrev DataFrame := List (String × Column)

/-- Errors raised by pandas column access: `df[name]` on a missing column
raises `KeyError(name)`. -/
inductive PdError where
  | keyError (key : String)
deriving DecidableEq

/-- Looks a column up by name, as `df[name]` does. -/
def lookupCol (df : DataFrame) (name : String) : Option Column :=
  (df.find? (fun c => c.1 == name)).map (fun c => c.2)

/-- Column assignment `df[name] = col`: replaces the column when the name
exists, appends a new column otherwise. -/
def setCol (df : DataFrame) (name : String) (col : Column) : DataFrame :=
  if (df.find? (fun c => c.1 == name)).isSome then
    df.map (fun c => if c.1 == name then (name, col) else c)
  else
    df ++ [(name, col)]

/-- Forward fill with the last defined value carried in `last`: embeds
pandas `fillna(method=ffill)`.  Leading NaN cells stay NaN. -/
def ffillAux (last : Option ℚ) : List (Option ℚ) → List (Option ℚ)
  | [] => []
  | some v :: rest => some v :: ffillAux (some v) rest
  | none :: rest => last :: ffillAux last rest

/-- Forward fill of a column, as `col.fillna(method=ffill)`. -/
def ffill (col : Column) : Column := ffillAux none col

/-- Embeds `fill_missing_values` (src/x_trader.py lines 50-52): reads the
column named `4. close` (raising KeyError when it is absent) and forward
fills it in place. -/
def fill_missing_values (df : DataFrame) : Except PdError DataFrame :=
  match lookupCol df "4. close" with
  | none => .error (.keyError "4. close")
  | some col => .ok (setCol df "4. close" (ffill col))

/-- The raw 8-column frame handed to `prepare_data` (the Alpha Vantage
daily-adjusted series parsed by `get_data`).  The assignment
`df.columns = [...]` in `prepare_data` is positional, so only the column
count and order matter here, not the raw names. -/
structure RawFrame where
  openC : Column
  highC : Column
  lowC : Column
  closeC : Column
  adjCloseC : Column
  volumeC : Column
  dividendC : Column
  splitC : Column

/-- The positional rename `df.columns = [Open, High, Low, Close,
Adjusted Close, Volume, Dividend Amount, Split Coefficient]`
(src/x_trader.py line 62). -/
def renameColumns (r : RawFrame) : DataFrame :=
  [("Open", r.openC), ("High", r.highC), ("Low", r.lowC),
   ("Close", r.closeC), ("Adjusted Close", r.adjCloseC),
   ("Volume", r.volumeC), ("Dividend Amount", r.dividendC),
   ("Split Coefficient", r.splitC)]

/-- Embeds `df.drop(columns=names)`. -/
def dropColumns (df : DataFrame) (names : List String) : DataFrame :=
  df.filter (fun c => !(names.contains c.1))

/-- Embeds `prepare_data` (src/x_trader.py lines 60-74): rename the eight
columns, drop five of them, then call `fill_missing_values`.  The index
conversion and sort touch only the (unmodelled) row index, not the columns. -/
def prepare_data (r : RawFrame) : Except PdError DataFrame :=
  fill_missing_values
    (dropColumns (renameColumns r)
      ["Open", "High", "Low", "Dividend Amount", "Split Coefficient"])

/-! ## Indicator arithmetic

Embedding of the pandas expressions in `calculate_technical_indicators`
(src/x_trader.py lines 77-88), NaN-faithful: a rolling window containing a
NaN yields NaN (pandas defaults `min_periods` to the window size), and the
comparisons `delta > 0` / `delta < 0` are False on NaN, so `where` replaces
a NaN delta by 0 in the gain and loss series. -/

/-- Turns a list of optional values into an optional list: `some` exactly
when every cell is defined. -/
def seqOpt : List (Option ℚ) → Option (List ℚ)
  | [] => some []
  | none :: _ => none
  | some x :: rest => (seqOpt rest).map (fun l => x :: l)

/-- The trailing window of width `w` ending at row `i`: rows
`i+1-w` to `i` of `xs`. -/
def windowAt (w i : ℕ) (xs : List (Option ℚ)) : List (Option ℚ) :=
  (xs.drop (i + 1 - w)).take w

/-- Embeds `series.rolling(window=w).mean()`: NaN while fewer than `w` rows
exist, NaN when the window contains a NaN, otherwise the arithmetic mean of
the `w` cells in the window. -/
def rollingMean (w : ℕ) (xs : List (Option ℚ)) : List (Option ℚ) :=
  (List.range xs.length).map (fun i =>
    if i + 1 < w then none
    else
      match seqOpt (windowAt w i xs) with
      | none => none
      | some vs => some (vs.sum / (w : ℚ)))

/-- The `ma5` column: `df[close].rolling(window=5).mean()`
(src/x_trader.py line 78). -/
def ma5col (close : Column) : Column := rollingMean 5 close

/-- The `ma20` column: `df[close].rolling(window=20).mean()`
(src/x_trader.py line 79). -/
def ma20col (close : Column) : Column := rollingMean 20 close

/-- Embeds `delta = df[close].diff()`: NaN at row 0, else the difference of
consecutive closes (NaN when either operand is NaN). -/
def diffCol (xs : Column) : Column :=
  (List.range xs.length).map (fun i =>
    match i with
    | 0 => none
    | j + 1 =>
        match xs.getD (j + 1) none, xs.getD j none with
        | some a, some b => some (a - b)
        | _, _ => none)

/-- Embeds `gain = delta.where(delta > 0, 0)`: the comparison is False on a
NaN delta, so a NaN delta becomes 0, never NaN. -/
def gains (xs : Column) : List ℚ :=
  (diffCol xs).map (fun d =>
    match d with
    | some v => if 0 < v then v else 0
    | none => 0)

/-- Embeds `loss = -delta.where(delta < 0, 0)`: keeps `-d` for negative
deltas, 0 elsewhere (including the NaN delta at row 0). -/
def losses (xs : Column) : List ℚ :=
  (diffCol xs).map (fun d =>
    match d with
    | some v => if v < 0 then -v else 0
    | none => 0)

/-- Embeds `avg_gain = gain.rolling(window=14).mean()`. -/
def avgGain (xs : Column) : Column := rollingMean 14 ((gains xs).map some)

/-- Embeds `avg_loss = loss.rolling(window=14).mean()`. -/
def avgLoss (xs : Column) : Column := rollingMean 14 ((losses xs).map some)

/-- Embeds `rs = avg_gain / avg_loss; rsi = 100 - 100 / (1 + rs)` under
IEEE float semantics: when both averages are defined and the average loss
is positive the expression is the exact rational value; average loss 0 with
positive average gain gives `rs = +inf` hence `rsi = 100 - 100/inf = 100`;
average loss 0 with average gain 0 gives `rs = 0/0 = NaN` hence a NaN rsi;
a NaN operand propagates to NaN. -/
def rsiCol (xs : Column) : Column :=
  (List.range xs.length).map (fun i =>
    match (avgGain xs).getD i none, (avgLoss xs).getD i none with
    | some g, some l =>
        if l = 0 then (if g = 0 then none else some 100)
        else some (100 - 100 / (1 + g / l))
    | _, _ => none)

/-- Embeds `calculate_technical_indicators` (src/x_trader.py lines 77-88):
reads `df[close]` (KeyError when absent) and attaches the `ma5`, `ma20` and
`rsi` columns computed from it. -/
def calculate_technical_indicators (df : DataFrame) : Except PdError DataFrame :=
  match lookupCol df "close" with
  | none => .error (.keyError "close")
  | some close =>
      .ok (setCol (setCol (setCol df "ma5" (ma5col close))
            "ma20" (ma20col close)) "rsi" (rsiCol close))

/-! ## Strategy, broker and replay loop

The `MovingAverageCross` strategy in src/x_trader.py (lines 91-106) calls
`buy()` on a positive crossover and `sell()` on a negative one, but the
crossover indicator, the broker and the bar-replay engine are
`backtrader` library code, not part of this repository.  These are
modelled from the specification (sections 4.2-4.4). -/

/-- Trading signal emitted once per bar (spec section 3). -/
inductive Signal where
  | hold
  | enterLong
  | enterShort
  | exitPos
deriving DecidableEq

/-- Position side (spec section 3). -/
inductive Side where
  | flat
  | long
  | short
deriving DecidableEq

/-- Sign of a position side, used in the mark-to-market formula. -/
def Side.sign : Side → ℚ
  | .flat => 0
  | .long => 1
  | .short => -1

/-- Modelled from the spec: the crossing detector of section 4.2 (the
`bt.indicators.CrossOver` used by `MovingAverageCross.__init__` is library
code not under src/).  Given the fast and slow moving-average values on the
previous and current bars: a transition from fast less than or equal to slow
to fast strictly greater emits ENTER_LONG, the mirror transition emits
ENTER_SHORT, and any other case, or any undefined average, emits HOLD. -/
def crossSignal (pf ps cf cs : Option ℚ) : Signal :=
  match pf, ps, cf, cs with
  | some a, some b, some c, some d =>
      if a ≤ b ∧ d < c then .enterLong
      else if b ≤ a ∧ c < d then .enterShort
      else .hold
  | _, _, _, _ => .hold

/-- Modelled from the spec: the per-bar signal sequence of the
moving-average-cross strategy (spec section 4.2), fast window 5 and slow
window 20 as in the `params` of `MovingAverageCross`.  Bar 0 has no
previous bar, hence HOLD. -/
def strategySignals (closes : Column) : List Signal :=
  (List.range closes.length).map (fun i =>
    match i with
    | 0 => .hold
    | j + 1 =>
        crossSignal ((ma5col closes).getD j none) ((ma20col closes).getD j none)
          ((ma5col closes).getD (j + 1) none) ((ma20col closes).getD (j + 1) none))

/-- Portfolio state owned by the broker (spec section 3): cash, realized
profit and loss, and the open position (side, quantity, entry price). -/
structure Portfolio where
  cash : ℚ
  realized : ℚ
  side : Side
  quantity : ℚ
  entryPrice : ℚ
deriving DecidableEq

/-- The portfolio at simulation start: the configured initial cash and a
FLAT position. -/
def initialPortfolio (cash : ℚ) : Portfolio :=
  { cash := cash, realized := 0, side := .flat, quantity := 0, entryPrice := 0 }

/-- One executed trade in the trade log: the bar whose signal created the
order, the side entered or exited, the quantity and the execution price. -/
structure Trade where
  barIndex : ℕ
  side : Side
  quantity : ℚ
  price : ℚ
deriving DecidableEq

/-- Fatal broker error (spec section 4.3): the strategy requested an order
incompatible with the current position. -/
inductive BrokerError where
  | contractViolation (barIndex : ℕ)
deriving DecidableEq

/-- Modelled from the spec: EXIT (section 4.3) closes the position fully at
the execution price; realized profit is `(exit - entry) * quantity * sign`;
cash increases by the proceeds (for a long, quantity times exit price; for a
short, the entry notional debited on entry plus the realized profit); the
position resets to FLAT.  EXIT on a FLAT position mutates nothing. -/
def exitPosition (p : Portfolio) (price : ℚ) (i : ℕ) : Portfolio × List Trade :=
  match p.side with
  | .flat => (p, [])
  | .long =>
      let pnl := (price - p.entryPrice) * p.quantity
      ({ cash := p.cash + p.quantity * price, realized := p.realized + pnl,
         side := .flat, quantity := 0, entryPrice := 0 },
       [⟨i, .long, p.quantity, price⟩])
  | .short =>
      let pnl := (p.entryPrice - price) * p.quantity
      ({ cash := p.cash + p.quantity * p.entryPrice + pnl, realized := p.realized + pnl,
         side := .flat, quantity := 0, entryPrice := 0 },
       [⟨i, .short, p.quantity, price⟩])

/-- Modelled from the spec: ENTER (section 4.3) sizes a new position using
all available cash at the execution price (full-allocation sizing); cash is
debited by the notional; the position takes the requested side with the
execution price as entry price.  Precondition (enforced by the caller):
the position is FLAT. -/
def enterPosition (p : Portfolio) (s : Side) (price : ℚ) (i : ℕ) : Portfolio × List Trade :=
  let qty := p.cash / price
  ({ cash := p.cash - qty * price, realized := p.realized,
     side := s, quantity := qty, entryPrice := price },
   [⟨i, s, qty, price⟩])

/-- Modelled from the spec: the broker consumes one signal plus the current
bar's close (section 4.3).  HOLD mutates nothing; EXIT closes the position;
ENTER on a FLAT position opens it; ENTER against an opposite position
issues the implicit EXIT first; ENTER while already positioned on the same
side is a caller contract violation and fails loudly. -/
def applySignal (p : Portfolio) (sig : Signal) (price : ℚ) (i : ℕ) :
    Except BrokerError (Portfolio × List Trade) :=
  match sig with
  | .hold => .ok (p, [])
  | .exitPos => .ok (exitPosition p price i)
  | .enterLong =>
      match p.side with
      | .long => .error (.contractViolation i)
      | .flat => .ok (enterPosition p .long price i)
      | .short =>
          let e := exitPosition p price i
          let n := enterPosition e.1 .long price i
          .ok (n.1, e.2 ++ n.2)
  | .enterShort =>
      match p.side with
      | .short => .error (.contractViolation i)
      | .flat => .ok (enterPosition p .short price i)
      | .long =>
          let e := exitPosition p price i
          let n := enterPosition e.1 .short price i
          .ok (n.1, e.2 ++ n.2)

/-- Modelled from the spec: mark-to-market equity, cash plus
`quantity * close * sign(side)` (spec section 3). -/
def equity (p : Portfolio) (price : ℚ) : ℚ :=
  p.cash + p.quantity * price * p.side.sign

/-- Modelled from the spec: the bar-at-a-time replay (section 4.4).  Each
step applies the bar's signal to the portfolio at that bar's close and
appends the post-trade equity; `i` is the index of the current bar. -/
def runAux (p : Portfolio) (i : ℕ) :
    List (Signal × ℚ) → Except BrokerError (List ℚ × List Trade)
  | [] => .ok ([], [])
  | (sig, price) :: rest =>
      match applySignal p sig price i with
      | .error e => .error e
      | .ok (p2, ts) =>
          match runAux p2 (i + 1) rest with
          | .error e => .error e
          | .ok (eqs, ts2) => .ok (equity p2 price :: eqs, ts ++ ts2)

/-- Modelled from the spec: the full backtest `run(bars, initial_cash)`
(sections 4.4 and 6; the `bt.Cerebro` engine invoked by `backtest` in
src/x_trader.py lines 109-117 is library code not under src/).  Replays the
close series through the strategy and broker from the initial cash,
returning the equity curve and the trade log. -/
def runBacktest (closes : List ℚ) (initialCash : ℚ) :
    Except BrokerError (List ℚ × List Trade) :=
  runAux (initialPortfolio initialCash) 0
    ((strategySignals (closes.map some)).zip closes)

/-- The trailing `w` closes at bar `i` as the specification words them: the
last `w` of the first `i + 1` close values. -/
def trailingCloses (w : ℕ) (closes : List ℚ) (i : ℕ) : List ℚ :=
  (closes.take (i + 1)).drop (i + 1 - w)

/-- A strictly increasing series of 14 closes, used as concrete input. -/
def upCloses : List ℚ :=
  [1, 2, 3, 4, 5, 6, 7, 8, 9, 10, 11, 12, 13, 14]

/-- An upward crossing at bar `i`: both averages defined on bars `i - 1` and
`i`, fast at most slow on the previous bar, fast strictly above slow on the
current bar. -/
def upcross (closes : Column) (i : ℕ) : Prop :=
  1 ≤ i ∧ ∃ a b c d,
    (ma5col closes).getD (i - 1) none = some a ∧
    (ma20col closes).getD (i - 1) none = some b ∧
    (ma5col closes).getD i none = some c ∧
    (ma20col closes).getD i none = some d ∧
    a ≤ b ∧ d < c

/-- The mirror downward crossing at bar `i`. -/
def downcross (closes : Column) (i : ℕ) : Prop :=
  1 ≤ i ∧ ∃ a b c d,
    (ma5col closes).getD (i - 1) none = some a ∧
    (ma20col closes).getD (i - 1) none = some b ∧
    (ma5col closes).getD i none = some c ∧
    (ma20col closes).getD i none = some d ∧
    b ≤ a ∧ c < d

/-- A 21-bar series: twenty flat closes at 100 followed by a jump to 200,
which makes the fast average cross above the slow one at bar 20. -/
def crossCloses : List ℚ := List.replicate 20 100 ++ [200]

/-- The single trade the crossing series produces: entering long at bar 20,
50 units at the close of 200 from 10000 of cash. -/
def witnessTrade : Trade := ⟨20, .long, 50, 200⟩

/-- A raw frame whose close column has a gap (NaN) at row 1. -/
def gapFrame : RawFrame :=
  { openC := [], highC := [], lowC := [],
    closeC := [some 10, none, some 12], adjCloseC := [], volumeC := [],
    dividendC := [], splitC := [] }

/-! ## Helper lemmas -/

/-- Reading a mapped range at an in-range index. -/
lemma getD_range_map {α : Type} (f : ℕ → α) (d : α) {n i : ℕ} (h : i < n) :
    ((List.range n).map f).getD i d = f i := by
  rw [List.getD_eq_getElem?_getD, List.getElem?_map, List.getElem?_range h]
  rfl

/-- Reading a mapped range at an out-of-range index gives the default. -/
lemma getD_range_map_ge {α : Type} (f : ℕ → α) (d : α) {n i : ℕ} (h : n ≤ i) :
    ((List.range n).map f).getD i d = d := by
  rw [List.getD_eq_getElem?_getD, List.getElem?_map,
    List.getElem?_eq_none (by simpa using h)]
  rfl

/-- A column of defined cells sequences to the list of its values. -/
lemma seqOpt_map_some (l : List ℚ) : seqOpt (l.map some) = some l := by
  induction l with
  | nil => rfl
  | cons x rest ih => simp [seqOpt, ih]

/-- The trailing window of a fully defined column is the mapped trailing
window of the underlying values. -/
lemma windowAt_map_some (w i : ℕ) (l : List ℚ) :
    windowAt w i (l.map some) = ((l.drop (i + 1 - w)).take w).map some := by
  unfold windowAt
  rw [← List.map_drop, ← List.map_take]

/-- Value of a rolling mean over a fully defined column once the window is
full. -/
lemma rollingMean_map_some_getD {w : ℕ} (l : List ℚ) {i : ℕ}
    (hi : i < l.length) (hw : w ≤ i + 1) :
    (rollingMean w (l.map some)).getD i none =
      some (((l.drop (i + 1 - w)).take w).sum / (w : ℚ)) := by
  unfold rollingMean
  rw [List.length_map, getD_range_map _ _ hi, if_neg (by omega),
    windowAt_map_some, seqOpt_map_some]

/-- A rolling mean is undefined while fewer than `w` rows exist. -/
lemma rollingMean_getD_none {w : ℕ} (xs : Column) {i : ℕ}
    (hi : i < xs.length) (hw : i + 1 < w) :
    (rollingMean w xs).getD i none = none := by
  unfold rollingMean
  rw [getD_range_map _ _ hi, if_pos hw]

/-- The trailing window has exactly `w` cells once `w` rows exist. -/
lemma window_length {w i : ℕ} (l : List ℚ) (hi : i < l.length) (hw : w ≤ i + 1) :
    ((l.drop (i + 1 - w)).take w).length = w := by
  rw [List.length_take, List.length_drop]
  omega

/-- The source slice (drop first, then take) is the trailing window of the
first `i + 1` values (take first, then drop). -/
lemma window_eq_trailing {w i : ℕ} (l : List ℚ) (hw : w ≤ i + 1) :
    (l.drop (i + 1 - w)).take w = (l.take (i + 1)).drop (i + 1 - w) := by
  rw [List.drop_take]
  congr 1
  omega

/-- A defined rolling-mean value over a column of nonnegative values is
nonnegative. -/
lemma rollingMean_map_some_nonneg {w : ℕ} {l : List ℚ}
    (hl : ∀ x ∈ l, 0 ≤ x) {i : ℕ} {g : ℚ}
    (h : (rollingMean w (l.map some)).getD i none = some g) : 0 ≤ g := by
  by_cases hi : i < l.length
  · by_cases hw : w ≤ i + 1
    · rw [rollingMean_map_some_getD l hi hw] at h
      have hsum : 0 ≤ ((l.drop (i + 1 - w)).take w).sum := by
        refine List.sum_nonneg (fun x hx => ?_)
        exact hl x (List.mem_of_mem_drop (List.mem_of_mem_take hx))
      have := Option.some.inj h
      subst this
      positivity
    · rw [rollingMean_getD_none _ (by simpa using hi) (by omega)] at h
      exact absurd h (by simp)
  · unfold rollingMean at h
    rw [List.length_map, getD_range_map_ge _ _ (by omega)] at h
    exact absurd h (by simp)

/-- Every cell of the gain series is nonnegative. -/
lemma gains_nonneg (xs : Column) : ∀ x ∈ gains xs, 0 ≤ x := by
  intro x hx
  unfold gains at hx
  obtain ⟨d, _, hd⟩ := List.mem_map.mp hx
  subst hd
  match d with
  | none => simp
  | some v =>
      by_cases h : 0 < v
      · simpa [h] using le_of_lt h
      · simp [h]

/-- Every cell of the loss series is nonnegative. -/
lemma losses_nonneg (xs : Column) : ∀ x ∈ losses xs, 0 ≤ x := by
  intro x hx
  unfold losses at hx
  obtain ⟨d, _, hd⟩ := List.mem_map.mp hx
  subst hd
  match d with
  | none => simp
  | some v =>
      by_cases h : v < 0
      · simpa [h] using by linarith
      · simp [h]

/-- The gain series has one cell per row of the close column. -/
lemma gains_length (xs : Column) : (gains xs).length = xs.length := by
  unfold gains diffCol
  simp

/-- The loss series has one cell per row of the close column. -/
lemma losses_length (xs : Column) : (losses xs).length = xs.length := by
  unfold losses diffCol
  simp

/-- Reduction of an rsi cell when both trailing averages are defined. -/
lemma rsiCol_getD_eq (xs : Column) {i : ℕ} (hi : i < xs.length) {g l : ℚ}
    (hg : (avgGain xs).getD i none = some g)
    (hl : (avgLoss xs).getD i none = some l) :
    (rsiCol xs).getD i none =
      if l = 0 then (if g = 0 then none else some 100)
      else some (100 - 100 / (1 + g / l)) := by
  unfold rsiCol
  rw [getD_range_map _ _ hi, hg, hl]

/-- An rsi cell is undefined when the trailing average gain is. -/
lemma rsiCol_getD_none (xs : Column) {i : ℕ} (hi : i < xs.length)
    (hg : (avgGain xs).getD i none = none) :
    (rsiCol xs).getD i none = none := by
  unfold rsiCol
  rw [getD_range_map _ _ hi, hg]

/-! ## Claim theorems -/

/-- C1: at every bar where the fast (window 5) and slow (window 20) moving
averages are defined, `calculate_technical_indicators` sets `ma5` and `ma20`
to the arithmetic mean of exactly the trailing 5 and 20 close values, and
leaves each average undefined (NaN) at every bar with fewer than the
window's number of closes so far. -/
theorem ma5_ma20_trailing_mean (closes : List ℚ) (i : ℕ) (h : i < closes.length) :
    ((i + 1 < 5 → (ma5col (closes.map some)).getD i none = none) ∧
     (5 ≤ i + 1 → (trailingCloses 5 closes i).length = 5 ∧
       (ma5col (closes.map some)).getD i none =
         some ((trailingCloses 5 closes i).sum / 5))) ∧
    ((i + 1 < 20 → (ma20col (closes.map some)).getD i none = none) ∧
     (20 ≤ i + 1 → (trailingCloses 20 closes i).length = 20 ∧
       (ma20col (closes.map some)).getD i none =
         some ((trailingCloses 20 closes i).sum / 20))) := by
  have hlen : i < (closes.map some).length := by simpa using h
  constructor
  · constructor
    · intro hw
      exact rollingMean_getD_none _ hlen hw
    · intro hw
      unfold trailingCloses
      rw [← window_eq_trailing closes hw]
      refine ⟨window_length closes h hw, ?_⟩
      unfold ma5col
      rw [rollingMean_map_some_getD closes h hw]
      norm_num
  · constructor
    · intro hw
      exact rollingMean_getD_none _ hlen hw
    · intro hw
      unfold trailingCloses
      rw [← window_eq_trailing closes hw]
      refine ⟨window_length closes h hw, ?_⟩
      unfold ma20col
      rw [rollingMean_map_some_getD closes h hw]
      norm_num

/-- Witness for C1 at a concrete 21-bar series and bar 20, where both
windows are full. -/
theorem ma5_ma20_trailing_mean_witness :
    ((20 + 1 < 5 →
        (ma5col ((List.replicate 21 (1 : ℚ)).map some)).getD 20 none = none) ∧
     (5 ≤ 20 + 1 →
        (trailingCloses 5 (List.replicate 21 (1 : ℚ)) 20).length = 5 ∧
        (ma5col ((List.replicate 21 (1 : ℚ)).map some)).getD 20 none =
          some ((trailingCloses 5 (List.replicate 21 (1 : ℚ)) 20).sum / 5))) ∧
    ((20 + 1 < 20 →
        (ma20col ((List.replicate 21 (1 : ℚ)).map some)).getD 20 none = none) ∧
     (20 ≤ 20 + 1 →
        (trailingCloses 20 (List.replicate 21 (1 : ℚ)) 20).length = 20 ∧
        (ma20col ((List.replicate 21 (1 : ℚ)).map some)).getD 20 none =
          some ((trailingCloses 20 (List.replicate 21 (1 : ℚ)) 20).sum / 20))) :=
  ma5_ma20_trailing_mean (List.replicate 21 (1 : ℚ)) 20 (by simp)

/-- C2: at every bar where the `rsi` column computed by
`calculate_technical_indicators` is defined, its value lies in `[0, 100]`,
and it equals 100 exactly when the average loss over the trailing 14-bar
window is 0. -/
theorem rsi_bounded_and_100_iff_no_loss (closes : List ℚ) (i : ℕ) (x : ℚ)
    (h : (rsiCol (closes.map some)).getD i none = some x) :
    0 ≤ x ∧ x ≤ 100 ∧
      (x = 100 ↔ (avgLoss (closes.map some)).getD i none = some 0) := by
  by_cases hi : i < (closes.map some).length
  · unfold rsiCol at h
    rw [getD_range_map _ _ hi] at h
    rcases hg : (avgGain (closes.map some)).getD i none with _ | g
    · rcases hl : (avgLoss (closes.map some)).getD i none with _ | l <;>
        rw [hg, hl] at h <;> simp at h
    · rcases hl : (avgLoss (closes.map some)).getD i none with _ | l
      · rw [hg, hl] at h
        simp at h
      · have hg0 : 0 ≤ g := by
          unfold avgGain at hg
          exact rollingMean_map_some_nonneg (gains_nonneg (closes.map some)) hg
        have hl0 : 0 ≤ l := by
          unfold avgLoss at hl
          exact rollingMean_map_some_nonneg (losses_nonneg (closes.map some)) hl
        rw [hg, hl] at h
        replace h :
            (if l = 0 then (if g = 0 then none else some (100 : ℚ))
             else some (100 - 100 / (1 + g / l))) = some x := h
        by_cases hlz : l = 0
        · by_cases hgz : g = 0
          · rw [if_pos hlz, if_pos hgz] at h
            exact absurd h (by simp)
          · rw [if_pos hlz, if_neg hgz] at h
            have hx : x = 100 := (Option.some.inj h).symm
            subst hx
            exact ⟨by norm_num, le_refl _, by simp [hlz]⟩
        · rw [if_neg hlz] at h
          have hlpos : 0 < l := lt_of_le_of_ne hl0 (fun e => hlz e.symm)
          have hdiv0 : 0 ≤ g / l := div_nonneg hg0 hl0
          have hd1 : (1 : ℚ) ≤ 1 + g / l := by linarith
          have hfracpos : (0 : ℚ) < 100 / (1 + g / l) := by positivity
          have hfracle : 100 / (1 + g / l) ≤ 100 := by
            calc 100 / (1 + g / l) ≤ 100 / 1 := by
                  apply div_le_div_of_nonneg_left (by norm_num) (by norm_num) hd1
              _ = 100 := by norm_num
          have hx : x = 100 - 100 / (1 + g / l) := (Option.some.inj h).symm
          refine ⟨by linarith, by linarith, ?_⟩
          constructor
          · intro h100
            exact absurd (by linarith : (100 : ℚ) / (1 + g / l) = 0)
              (ne_of_gt hfracpos)
          · intro hsome
            exact absurd (Option.some.inj hsome) hlz
  · unfold rsiCol at h
    rw [getD_range_map_ge _ _ (by omega)] at h
    exact absurd h (by simp)

/-- Witness for C2 at bar 13 of a strictly increasing 14-close series, where
the rsi is defined and equals 100. -/
theorem rsi_bounded_and_100_iff_no_loss_witness :
    0 ≤ (100 : ℚ) ∧ (100 : ℚ) ≤ 100 ∧
      ((100 : ℚ) = 100 ↔ (avgLoss (upCloses.map some)).getD 13 none = some 0) :=
  rsi_bounded_and_100_iff_no_loss upCloses 13 100 (by with_unfolding_all rfl)

/-- C3 counterexample: the claim says the rsi is undefined at every bar with
fewer than 15 closes so far, but at bar 13 of a 14-close strictly increasing
series the rsi is already defined (and equals 100): the NaN first delta is
coerced to a zero gain and a zero loss by the `where` masking, so the 14-bar
rolling averages are full one bar earlier than the claim states. -/
theorem rsi_defined_at_14_closes :
    upCloses.length = 14 ∧
      (rsiCol (upCloses.map some)).getD 13 none = some 100 := by
  refine ⟨rfl, ?_⟩
  with_unfolding_all rfl

/-- C3 amended: the rsi column is undefined at every bar with fewer than 14
closes so far; at every bar with at least 14 closes it is defined unless the
trailing average gain and average loss are both zero (a flat window, where
`0 / 0` is NaN). -/
theorem rsi_defined_iff_window_full (closes : List ℚ) (i : ℕ)
    (h : i < closes.length) :
    (i + 1 < 14 → (rsiCol (closes.map some)).getD i none = none) ∧
    (14 ≤ i + 1 →
      ((rsiCol (closes.map some)).getD i none = none ↔
        (avgGain (closes.map some)).getD i none = some 0 ∧
        (avgLoss (closes.map some)).getD i none = some 0)) := by
  have hi : i < (closes.map some).length := by simpa using h
  constructor
  · intro hw
    apply rsiCol_getD_none _ hi
    unfold avgGain
    apply rollingMean_getD_none
    · rw [List.length_map, gains_length]
      simpa using h
    · exact hw
  · intro hw
    have hig : i < (gains (closes.map some)).length := by
      rw [gains_length]
      simpa using h
    have hil : i < (losses (closes.map some)).length := by
      rw [losses_length]
      simpa using h
    have hG : (avgGain (closes.map some)).getD i none =
        some ((((gains (closes.map some)).drop (i + 1 - 14)).take 14).sum / 14) := by
      unfold avgGain
      exact rollingMean_map_some_getD _ hig hw
    have hL : (avgLoss (closes.map some)).getD i none =
        some ((((losses (closes.map some)).drop (i + 1 - 14)).take 14).sum / 14) := by
      unfold avgLoss
      exact rollingMean_map_some_getD _ hil hw
    rw [rsiCol_getD_eq _ hi hG hL, hG, hL]
    constructor
    · intro hnone
      split_ifs at hnone with h1 h2
      exact ⟨by rw [h2], by rw [h1]⟩
    · rintro ⟨hg0, hl0⟩
      rw [if_pos (Option.some.inj hl0), if_pos (Option.some.inj hg0)]

/-- Witness for the amended C3 at bar 13 of the increasing 14-close series:
the window is full and not flat, so the rsi is defined there. -/
theorem rsi_defined_iff_window_full_witness :
    (13 + 1 < 14 → (rsiCol (upCloses.map some)).getD 13 none = none) ∧
    (14 ≤ 13 + 1 →
      ((rsiCol (upCloses.map some)).getD 13 none = none ↔
        (avgGain (upCloses.map some)).getD 13 none = some 0 ∧
        (avgLoss (upCloses.map some)).getD 13 none = some 0)) :=
  rsi_defined_iff_window_full upCloses 13 (by decide)

/-- The signal at an in-range bar index. -/
lemma strategySignals_getD (closes : Column) {i : ℕ} (hi : i < closes.length) :
    (strategySignals closes).getD i .hold =
      match i with
      | 0 => .hold
      | j + 1 =>
          crossSignal ((ma5col closes).getD j none) ((ma20col closes).getD j none)
            ((ma5col closes).getD (j + 1) none) ((ma20col closes).getD (j + 1) none) := by
  unfold strategySignals
  rw [getD_range_map _ _ hi]
  cases i <;> rfl

/-- The crossing detector answers ENTER_LONG exactly on an upward sign
change with all four inputs defined. -/
lemma crossSignal_eq_enterLong (pf ps cf cs : Option ℚ) :
    crossSignal pf ps cf cs = .enterLong ↔
      ∃ a b c d, pf = some a ∧ ps = some b ∧ cf = some c ∧ cs = some d ∧
        a ≤ b ∧ d < c := by
  cases pf <;> cases ps <;> cases cf <;> cases cs <;> simp [crossSignal] <;>
    split_ifs with h1 h2 <;> simp_all

/-- The crossing detector answers ENTER_SHORT exactly on a downward sign
change with all four inputs defined. -/
lemma crossSignal_eq_enterShort (pf ps cf cs : Option ℚ) :
    crossSignal pf ps cf cs = .enterShort ↔
      ∃ a b c d, pf = some a ∧ ps = some b ∧ cf = some c ∧ cs = some d ∧
        b ≤ a ∧ c < d := by
  cases pf <;> cases ps <;> cases cf <;> cases cs <;> simp [crossSignal] <;>
    split_ifs with h1 h2 <;> simp_all <;> exact fun hba => le_of_lt h1.2

/-- The crossing detector never answers EXIT. -/
lemma crossSignal_ne_exitPos (pf ps cf cs : Option ℚ) :
    crossSignal pf ps cf cs ≠ .exitPos := by
  cases pf <;> cases ps <;> cases cf <;> cases cs <;> simp [crossSignal] <;>
    split_ifs <;> simp

/-- On a sustained fast-above-slow relation the detector emits no order. -/
lemma crossSignal_hold_of_sustained {a b c d : ℚ} (hba : b < a) (hdc : d < c) :
    crossSignal (some a) (some b) (some c) (some d) = .hold := by
  have hx : ¬(a ≤ b ∧ d < c) := fun hh => absurd hh.1 (not_le.mpr hba)
  have hy : ¬(b ≤ a ∧ c < d) := fun hh => absurd hh.2 (not_lt.mpr (le_of_lt hdc))
  show (if a ≤ b ∧ d < c then Signal.enterLong
        else if b ≤ a ∧ c < d then .enterShort else .hold) = .hold
  rw [if_neg hx, if_neg hy]

/-- C4: the moving-average-cross strategy emits a buy (enter-long) order
exactly at a bar where the fast average crosses from at-most-slow on the
previous bar to above-slow on the current bar, a sell order exactly at the
mirror crossing, and no order on every other bar; in particular a sustained
fast-above-slow condition does not re-trigger an order on the next bar. -/
theorem cross_strategy_signal_characterization (closes : Column) (i : ℕ)
    (h : i < closes.length) :
    ((strategySignals closes).getD i .hold = .enterLong ↔ upcross closes i) ∧
    ((strategySignals closes).getD i .hold = .enterShort ↔ downcross closes i) ∧
    (¬ upcross closes i → ¬ downcross closes i →
      (strategySignals closes).getD i .hold = .hold) ∧
    (∀ c d nc nd, i + 1 < closes.length →
      (ma5col closes).getD i none = some c →
      (ma20col closes).getD i none = some d →
      (ma5col closes).getD (i + 1) none = some nc →
      (ma20col closes).getD (i + 1) none = some nd →
      d < c → nd < nc →
      (strategySignals closes).getD (i + 1) .hold = .hold) := by
  have retrig : ∀ c d nc nd, i + 1 < closes.length →
      (ma5col closes).getD i none = some c →
      (ma20col closes).getD i none = some d →
      (ma5col closes).getD (i + 1) none = some nc →
      (ma20col closes).getD (i + 1) none = some nd →
      d < c → nd < nc →
      (strategySignals closes).getD (i + 1) .hold = .hold := by
    intro c d nc nd h1 hm5 hm20 hm5n hm20n hdc hnd
    rw [strategySignals_getD closes h1]
    show crossSignal ((ma5col closes).getD i none) ((ma20col closes).getD i none)
        ((ma5col closes).getD (i + 1) none) ((ma20col closes).getD (i + 1) none) = .hold
    rw [hm5, hm20, hm5n, hm20n]
    exact crossSignal_hold_of_sustained hdc hnd
  refine ⟨?_, ?_, ?_, retrig⟩
  · cases i with
    | zero =>
        rw [strategySignals_getD closes h]
        simp [upcross]
    | succ j =>
        rw [strategySignals_getD closes h]
        show crossSignal ((ma5col closes).getD j none) ((ma20col closes).getD j none)
            ((ma5col closes).getD (j + 1) none) ((ma20col closes).getD (j + 1) none) =
            .enterLong ↔ upcross closes (j + 1)
        rw [crossSignal_eq_enterLong]
        constructor
        · rintro ⟨a, b, c, d, h1, h2, h3, h4, h5, h6⟩
          exact ⟨Nat.succ_le_succ (Nat.zero_le j), a, b, c, d, h1, h2, h3, h4, h5, h6⟩
        · rintro ⟨-, a, b, c, d, h1, h2, h3, h4, h5, h6⟩
          exact ⟨a, b, c, d, h1, h2, h3, h4, h5, h6⟩
  · cases i with
    | zero =>
        rw [strategySignals_getD closes h]
        simp [downcross]
    | succ j =>
        rw [strategySignals_getD closes h]
        show crossSignal ((ma5col closes).getD j none) ((ma20col closes).getD j none)
            ((ma5col closes).getD (j + 1) none) ((ma20col closes).getD (j + 1) none) =
            .enterShort ↔ downcross closes (j + 1)
        rw [crossSignal_eq_enterShort]
        constructor
        · rintro ⟨a, b, c, d, h1, h2, h3, h4, h5, h6⟩
          exact ⟨Nat.succ_le_succ (Nat.zero_le j), a, b, c, d, h1, h2, h3, h4, h5, h6⟩
        · rintro ⟨-, a, b, c, d, h1, h2, h3, h4, h5, h6⟩
          exact ⟨a, b, c, d, h1, h2, h3, h4, h5, h6⟩
  · intro hup hdown
    cases i with
    | zero =>
        rw [strategySignals_getD closes h]
    | succ j =>
        rw [strategySignals_getD closes h]
        show crossSignal ((ma5col closes).getD j none) ((ma20col closes).getD j none)
            ((ma5col closes).getD (j + 1) none) ((ma20col closes).getD (j + 1) none) = .hold
        cases hc : crossSignal ((ma5col closes).getD j none) ((ma20col closes).getD j none)
            ((ma5col closes).getD (j + 1) none) ((ma20col closes).getD (j + 1) none) with
        | hold => rfl
        | enterLong =>
            obtain ⟨a, b, c, d, h1, h2, h3, h4, h5, h6⟩ :=
              (crossSignal_eq_enterLong _ _ _ _).mp hc
            exact absurd
              ⟨Nat.succ_le_succ (Nat.zero_le j), a, b, c, d, h1, h2, h3, h4, h5, h6⟩ hup
        | enterShort =>
            obtain ⟨a, b, c, d, h1, h2, h3, h4, h5, h6⟩ :=
              (crossSignal_eq_enterShort _ _ _ _).mp hc
            exact absurd
              ⟨Nat.succ_le_succ (Nat.zero_le j), a, b, c, d, h1, h2, h3, h4, h5, h6⟩ hdown
        | exitPos => exact absurd hc (crossSignal_ne_exitPos _ _ _ _)

/-- Witness for C4 at bar 0 of the 21-bar crossing series. -/
theorem cross_strategy_signal_characterization_witness :
    ((strategySignals (crossCloses.map some)).getD 0 .hold = .enterLong ↔
        upcross (crossCloses.map some) 0) ∧
    ((strategySignals (crossCloses.map some)).getD 0 .hold = .enterShort ↔
        downcross (crossCloses.map some) 0) ∧
    (¬ upcross (crossCloses.map some) 0 → ¬ downcross (crossCloses.map some) 0 →
      (strategySignals (crossCloses.map some)).getD 0 .hold = .hold) ∧
    (∀ c d nc nd, 0 + 1 < (crossCloses.map some).length →
      (ma5col (crossCloses.map some)).getD 0 none = some c →
      (ma20col (crossCloses.map some)).getD 0 none = some d →
      (ma5col (crossCloses.map some)).getD (0 + 1) none = some nc →
      (ma20col (crossCloses.map some)).getD (0 + 1) none = some nd →
      d < c → nd < nc →
      (strategySignals (crossCloses.map some)).getD (0 + 1) .hold = .hold) :=
  cross_strategy_signal_characterization (crossCloses.map some) 0
    (by simp [crossCloses])

/-- Every trade logged by an EXIT carries the bar index and price it was
given. -/
lemma exitPosition_trades (p : Portfolio) (price : ℚ) (i : ℕ) :
    ∀ t ∈ (exitPosition p price i).2, t.barIndex = i ∧ t.price = price := by
  cases hp : p.side <;> simp [exitPosition, hp]

/-- Every trade logged by an ENTER carries the bar index and price it was
given. -/
lemma enterPosition_trades (p : Portfolio) (s : Side) (price : ℚ) (i : ℕ) :
    ∀ t ∈ (enterPosition p s price i).2, t.barIndex = i ∧ t.price = price := by
  simp [enterPosition]

/-- Every trade the broker logs for one signal carries the bar index and the
execution price the broker was handed. -/
lemma applySignal_trades {p : Portfolio} {sig : Signal} {price : ℚ} {i : ℕ}
    {p2 : Portfolio} {ts : List Trade}
    (h : applySignal p sig price i = .ok (p2, ts)) :
    ∀ t ∈ ts, t.barIndex = i ∧ t.price = price := by
  intro t ht
  cases sig with
  | hold =>
      have h' : (p, ([] : List Trade)) = (p2, ts) := Except.ok.inj h
      injection h' with h1 h2
      rw [← h2] at ht
      simp at ht
  | exitPos =>
      have h' : exitPosition p price i = (p2, ts) := Except.ok.inj h
      have h2 : (exitPosition p price i).2 = ts := by rw [h']
      refine exitPosition_trades p price i t ?_
      rw [h2]
      exact ht
  | enterLong =>
      cases hside : p.side with
      | long => simp [applySignal, hside] at h
      | flat =>
          have h' : enterPosition p .long price i = (p2, ts) := by
            have := h
            simp only [applySignal, hside] at this
            exact Except.ok.inj this
          have h2 : (enterPosition p .long price i).2 = ts := by rw [h']
          refine enterPosition_trades p .long price i t ?_
          rw [h2]
          exact ht
      | short =>
          have h' : ((enterPosition (exitPosition p price i).1 .long price i).1,
              (exitPosition p price i).2 ++
                (enterPosition (exitPosition p price i).1 .long price i).2) =
              (p2, ts) := by
            have := h
            simp only [applySignal, hside] at this
            exact Except.ok.inj this
          injection h' with h1 h2
          rw [← h2] at ht
          rcases List.mem_append.mp ht with hm | hm
          · exact exitPosition_trades p price i t hm
          · exact enterPosition_trades _ .long price i t hm
  | enterShort =>
      cases hside : p.side with
      | short => simp [applySignal, hside] at h
      | flat =>
          have h' : enterPosition p .short price i = (p2, ts) := by
            have := h
            simp only [applySignal, hside] at this
            exact Except.ok.inj this
          have h2 : (enterPosition p .short price i).2 = ts := by rw [h']
          refine enterPosition_trades p .short price i t ?_
          rw [h2]
          exact ht
      | long =>
          have h' : ((enterPosition (exitPosition p price i).1 .short price i).1,
              (exitPosition p price i).2 ++
                (enterPosition (exitPosition p price i).1 .short price i).2) =
              (p2, ts) := by
            have := h
            simp only [applySignal, hside] at this
            exact Except.ok.inj this
          injection h' with h1 h2
          rw [← h2] at ht
          rcases List.mem_append.mp ht with hm | hm
          · exact exitPosition_trades p price i t hm
          · exact enterPosition_trades _ .short price i t hm

/-- Every trade in the replay's log originates at some step `k` of the
remaining bars, tagged with that bar's index and close. -/
lemma runAux_trades (pairs : List (Signal × ℚ)) :
    ∀ (p : Portfolio) (i : ℕ) (eqs : List ℚ) (ts : List Trade),
      runAux p i pairs = .ok (eqs, ts) →
      ∀ t ∈ ts, ∃ k, k < pairs.length ∧ t.barIndex = i + k ∧
        t.price = (pairs.map Prod.snd).getD k 0 := by
  induction pairs with
  | nil =>
      intro p i eqs ts h t ht
      have h' : (([] : List ℚ), ([] : List Trade)) = (eqs, ts) := Except.ok.inj h
      injection h' with h1 h2
      rw [← h2] at ht
      simp at ht
  | cons hd tl ih =>
      obtain ⟨sig, price⟩ := hd
      intro p i eqs ts h t ht
      cases happ : applySignal p sig price i with
      | error e =>
          simp only [runAux, happ] at h
          exact Except.noConfusion h
      | ok pr =>
          obtain ⟨p2, ts1⟩ := pr
          cases hrec : runAux p2 (i + 1) tl with
          | error e =>
              simp only [runAux, happ, hrec] at h
              exact Except.noConfusion h
          | ok pr2 =>
              obtain ⟨eqs2, ts2⟩ := pr2
              simp only [runAux, happ, hrec] at h
              have h' : (equity p2 price :: eqs2, ts1 ++ ts2) = (eqs, ts) :=
                Except.ok.inj h
              injection h' with h1 h2
              rw [← h2] at ht
              rcases List.mem_append.mp ht with hm | hm
              · obtain ⟨hbar, hpr⟩ := applySignal_trades happ t hm
                exact ⟨0, by simp, by omega, by simpa using hpr⟩
              · obtain ⟨k, hk, hbar, hpr⟩ := ih p2 (i + 1) eqs2 ts2 hrec t hm
                refine ⟨k + 1, by simpa using Nat.succ_lt_succ hk, by omega, ?_⟩
                simpa using hpr

/-- C5: every order created from the signal of bar `i` executes at bar
`i`'s close price (same-bar execution, no next-bar delay, slippage, cost or
partial fill): each trade in the backtest log is priced at the close of the
bar it is indexed with. -/
theorem trades_execute_at_same_bar_close (closes : List ℚ) (initialCash : ℚ)
    (eqc : List ℚ) (ts : List Trade)
    (h : runBacktest closes initialCash = .ok (eqc, ts)) :
    ∀ t ∈ ts, t.barIndex < closes.length ∧ t.price = closes.getD t.barIndex 0 := by
  intro t ht
  unfold runBacktest at h
  obtain ⟨k, hk, hbar, hpr⟩ := runAux_trades _ _ _ _ _ h t ht
  have hlen : (strategySignals (closes.map some)).length = closes.length := by
    unfold strategySignals
    simp
  have hmap : ((strategySignals (closes.map some)).zip closes).map Prod.snd = closes :=
    List.map_snd_zip _ _ (le_of_eq hlen.symm)
  have hzlen : ((strategySignals (closes.map some)).zip closes).length = closes.length := by
    rw [List.length_zip, hlen, Nat.min_self]
  constructor
  · rw [hzlen] at hk
    omega
  · rw [hmap] at hpr
    rw [hbar]
    simpa using hpr

/-- Witness for C5 on the 21-bar crossing series: the logged trade enters at
bar 20 and is priced at that bar's close of 200. -/
theorem trades_execute_at_same_bar_close_witness :
    witnessTrade.barIndex < crossCloses.length ∧
      witnessTrade.price = crossCloses.getD witnessTrade.barIndex 0 :=
  trades_execute_at_same_bar_close crossCloses 10000
    (List.replicate 21 10000) [witnessTrade]
    (by with_unfolding_all rfl) witnessTrade (by simp)

/-- C6: an executing enter-long order sizes the new position with all
available cash at the execution price; concretely, ENTER_LONG with cash
10000 at close 100 yields quantity 100 and cash 0, and a subsequent EXIT at
close 110 yields realized profit 1000, cash 11000 and a FLAT position. -/
theorem enter_long_full_allocation_and_roundtrip :
    (∀ (p : Portfolio) (price : ℚ), p.side = .flat → price ≠ 0 →
      ∃ ts, applySignal p .enterLong price 0 =
        .ok ({ cash := 0, realized := p.realized, side := .long,
               quantity := p.cash / price, entryPrice := price }, ts)) ∧
    (applySignal (initialPortfolio 10000) .enterLong 100 0 =
      .ok ({ cash := 0, realized := 0, side := .long, quantity := 100,
             entryPrice := 100 }, [⟨0, .long, 100, 100⟩]) ∧
     applySignal { cash := 0, realized := 0, side := .long, quantity := 100,
                   entryPrice := 100 } .exitPos 110 1 =
      .ok ({ cash := 11000, realized := 1000, side := .flat, quantity := 0,
             entryPrice := 0 }, [⟨1, .long, 100, 110⟩])) := by
  refine ⟨?_, by with_unfolding_all rfl, by with_unfolding_all rfl⟩
  intro p price hflat hnz
  refine ⟨[⟨0, .long, p.cash / price, price⟩], ?_⟩
  simp only [applySignal, hflat]
  unfold enterPosition
  dsimp only
  rw [div_mul_cancel₀ _ hnz, sub_self]

/-- Witness for C6's general full-allocation clause at cash 10000 and
price 100. -/
theorem enter_long_full_allocation_witness :
    ∃ ts, applySignal (initialPortfolio 10000) .enterLong 100 0 =
      .ok ({ cash := 0, realized := 0, side := .long,
             quantity := 10000 / 100, entryPrice := 100 }, ts) :=
  enter_long_full_allocation_and_roundtrip.1 (initialPortfolio 10000) 100 rfl
    (by norm_num)

/-- C8: replaying an identical bar sequence from identical initial cash
produces an identical equity curve and trade log; the backtest is a pure
function of its inputs. -/
theorem backtest_deterministic (c1 c2 : List ℚ) (k1 k2 : ℚ)
    (hc : c1 = c2) (hk : k1 = k2) :
    runBacktest c1 k1 = runBacktest c2 k2 := by
  subst hc
  subst hk
  rfl

/-- Witness for C8 on the crossing series. -/
theorem backtest_deterministic_witness :
    runBacktest crossCloses 10000 = runBacktest crossCloses 10000 :=
  backtest_deterministic crossCloses crossCloses 10000 10000 rfl rfl

/-- C9: `prepare_data` raises `KeyError` on every input frame: after the
positional rename the columns are Open/High/Low/Close/Adjusted
Close/Volume/Dividend Amount/Split Coefficient, and `fill_missing_values`
then reads the pre-rename name `4. close`, which no longer exists. -/
theorem prepare_data_always_keyerror (r : RawFrame) :
    prepare_data r = .error (.keyError "4. close") := rfl

/-- C10: on every frame with the columns `prepare_data` is specified to
produce (Close, Adjusted Close, Volume), `calculate_technical_indicators`
raises `KeyError` because it reads the lowercase name `close`. -/
theorem calculate_indicators_keyerror_on_prepared_columns (c a v : Column) :
    calculate_technical_indicators
        [("Close", c), ("Adjusted Close", a), ("Volume", v)] =
      .error (.keyError "close") := rfl

/-- C7 (code bug): on a frame whose close column has a gap at row 1,
`prepare_data` raises `KeyError` instead of forward filling, so the filled
value never reaches any downstream computation; the second conjunct shows
what the intended forward fill of that column would produce (the gap cell
takes the preceding close). -/
theorem prepare_data_gap_keyerror :
    prepare_data gapFrame = .error (.keyError "4. close") ∧
      ffill [some 10, none, some 12] = [some 10, some 10, some 12] :=
  ⟨rfl, rfl⟩

end XTrader
